import Mathlib

/-!
Shallow embedding of the Lexical_proximity repository (Python) and proofs of
the specification claims about it.

The repository has two relevant modules:

* `data_loader.py` — the `DataLoader` class: text normalisation and shingle
  extraction (`generate_shingles`), using CRC-32 over the UTF-8 encoding of
  each k-word window.
* `lexical_proximity_algorithm.py` — the `LexicalProximityAlgorithm` class:
  random coefficient generation (`_pick_random_coeffs`), MinHash signature
  generation (`generate_minhash_signatures`) and pairwise similarity
  estimation (`calculate_similarities`).

Modelling conventions:

* Python `dict` values (`docs_as_sets`) become insertion-ordered association
  lists `List (ℕ × Finset ℕ)`; Python 3.7+ dicts iterate in insertion order.
* Python `set` becomes `Finset ℕ`.  The only iteration the code performs over
  a set is a running-minimum accumulation, which is order-insensitive, so
  `Finset.fold min` is a faithful model of the loop regardless of the
  iteration order CPython happens to use.
* Python integers become `ℕ` (all quantities involved are nonnegative); the
  float division `count / num_hashes` becomes exact division in `ℚ`.
* `random.randint`, an external entropy source, becomes an explicit stream
  `f : ℕ → ℕ` of successive draws; the unbounded `while` loop of
  `_pick_random_coeffs` becomes a fuel-indexed loop returning `Option`,
  where `none` means the loop is still running after `fuel` draws.
* Python list indexing `xs[i]` (which the pipeline only performs in bounds)
  becomes `List.getD` with a default that is never hit under the stated
  hypotheses.
-/

namespace LexicalProximity

/-! ### data_loader.py -/

/-- UTF-8 encoding of a single character, as a list of byte values, exactly
as Python `str.encode("utf-8")` produces for each code point. -/
def utf8EncodeChar (c : Char) : List ℕ :=
  let n := c.toNat
  if n < 0x80 then [n]
  else if n < 0x800 then
    [0xC0 ||| (n >>> 6), 0x80 ||| (n &&& 0x3F)]
  else if n < 0x10000 then
    [0xE0 ||| (n >>> 12), 0x80 ||| ((n >>> 6) &&& 0x3F), 0x80 ||| (n &&& 0x3F)]
  else
    [0xF0 ||| (n >>> 18), 0x80 ||| ((n >>> 12) &&& 0x3F),
     0x80 ||| ((n >>> 6) &&& 0x3F), 0x80 ||| (n &&& 0x3F)]

/-- UTF-8 encoding of a string (Python `shingle.encode("utf-8")`). -/
def utf8Encode (s : String) : List ℕ :=
  s.data.flatMap utf8EncodeChar

/-- Reversed CRC-32 polynomial 0xEDB88320, the one `binascii.crc32` uses. -/
def crc32Poly : ℕ := 0xEDB88320

/-- One bit-step of the reflected CRC-32 computation. -/
def crc32Round (c : ℕ) : ℕ :=
  if c % 2 = 1 then (c >>> 1) ^^^ crc32Poly else c >>> 1

/-- Fold one byte into the running CRC-32 value: xor the byte into the low
bits, then run eight bit-steps. -/
def crc32UpdateByte (crc b : ℕ) : ℕ :=
  crc32Round^[8] (crc ^^^ b)

/-- CRC-32 of a byte sequence (`binascii.crc32(data) & 0xffffffff`):
initial value 0xFFFFFFFF, one update per byte, final complement. -/
def crc32 (bytes : List ℕ) : ℕ :=
  (bytes.foldl crc32UpdateByte 0xFFFFFFFF) ^^^ 0xFFFFFFFF

/-- Python `text.split()`: split on whitespace runs, dropping empty pieces. -/
def splitWords (text : String) : List String :=
  (text.split Char.isWhitespace).filter (fun w => w ≠ "")

/-- State of the `DataLoader` class (`data_loader.py`, lines 33-44). -/
structure DataLoader where
  directory : String
  doc_counter : ℕ
  docs_as_sets : List (ℕ × Finset ℕ)
  shingle_size : ℕ

/-- Embeds `DataLoader.__init__` (`data_loader.py`, lines 33-44): it only
stores its arguments; it performs no validation and cannot fail. -/
def DataLoader.init (directory : String) (shingle_size : ℕ) : DataLoader :=
  { directory := directory, doc_counter := 0, docs_as_sets := [],
    shingle_size := shingle_size }

/-- Number of iterations of the loop `for i in range(len(words) - k + 1)`:
the subtraction is evaluated in ℤ, and a nonpositive bound gives an empty
range. -/
def windowCount (wordCount k : ℕ) : ℕ :=
  ((wordCount : ℤ) - (k : ℤ) + 1).toNat

/-- Embeds `DataLoader.generate_shingles` (`data_loader.py`, lines 77-93):
split the text into words, slide a window of `shingle_size` consecutive
words, join each window with single spaces, CRC-32 hash its UTF-8 bytes and
collect the hashes into a set. -/
def DataLoader.generate_shingles (dl : DataLoader) (text : String) : Finset ℕ :=
  (List.range (windowCount (splitWords text).length dl.shingle_size)).foldl
    (fun shingles i =>
      insert (crc32 (utf8Encode (String.intercalate " "
        (((splitWords text).drop i).take dl.shingle_size)))) shingles)
    ∅

/-! ### lexical_proximity_algorithm.py -/

/-- The maximum shingle value `2**32 - 1` (`lexical_proximity_algorithm.py`,
line 42). -/
def maxShingle : ℕ := 2 ^ 32 - 1

/-- The prime 4294967311 just above `maxShingle`
(`lexical_proximity_algorithm.py`, line 43). -/
def nextPrime : ℕ := 4294967311

/-- Embeds the `while len(rand_set) < self.num_hashes` loop of
`_pick_random_coeffs` (`lexical_proximity_algorithm.py`, lines 57-61).
`f` is the stream of values returned by successive `random.randint` calls,
`i` counts the draws made so far, and `fuel` bounds how many more draws we
unfold; `none` means the loop has not yet finished within `fuel` draws.
The membership test before `rand_set.add` is subsumed by `insert`. -/
def pickLoop (num_hashes : ℕ) (f : ℕ → ℕ) : ℕ → ℕ → Finset ℕ → Option (Finset ℕ)
  | 0, _, rand_set =>
    if num_hashes ≤ rand_set.card then some rand_set else none
  | fuel + 1, i, rand_set =>
    if num_hashes ≤ rand_set.card then some rand_set
    else pickLoop num_hashes f fuel (i + 1) (insert (f i) rand_set)

/-- Embeds `_pick_random_coeffs` (`lexical_proximity_algorithm.py`, lines
47-62): run the sampling loop from an empty set, then return the set's
elements as a list (`list(rand_set)`; CPython's order is unspecified, we
fix the sorted one). -/
def pick_random_coeffs (num_hashes : ℕ) (f : ℕ → ℕ) (fuel : ℕ) : Option (List ℕ) :=
  (pickLoop num_hashes f fuel 0 ∅).map (fun s => s.sort (· ≤ ·))

/-- State of the `LexicalProximityAlgorithm` class
(`lexical_proximity_algorithm.py`, lines 29-45). -/
structure LexicalProximityAlgorithm where
  docs_as_sets : List (ℕ × Finset ℕ)
  num_hashes : ℕ
  similarity_threshold : ℚ
  num_docs : ℕ
  coeff_a : List ℕ
  coeff_b : List ℕ

/-- Embeds `LexicalProximityAlgorithm.__init__`
(`lexical_proximity_algorithm.py`, lines 29-45): store the arguments, set
`num_docs := len(docs_as_sets)` and draw the two coefficient pools.  `fa`
and `fb` are the entropy streams consumed by the two `_pick_random_coeffs`
calls.  No validation of `num_hashes` is performed. -/
def LexicalProximityAlgorithm.init (docs_as_sets : List (ℕ × Finset ℕ))
    (num_hashes : ℕ) (similarity_threshold : ℚ) (fa fb : ℕ → ℕ)
    (fuelA fuelB : ℕ) : Option LexicalProximityAlgorithm :=
  match pick_random_coeffs num_hashes fa fuelA,
        pick_random_coeffs num_hashes fb fuelB with
  | some a, some b =>
      some { docs_as_sets := docs_as_sets, num_hashes := num_hashes,
             similarity_threshold := similarity_threshold,
             num_docs := docs_as_sets.length, coeff_a := a, coeff_b := b }
  | _, _ => none

/-- The hash `hash_code = (coeff_a[i] * shingleID + coeff_b[i]) % next_prime`
(`lexical_proximity_algorithm.py`, line 78). -/
def hashCode (a b x : ℕ) : ℕ := (a * x + b) % nextPrime

/-- Embeds the inner loop of `generate_minhash_signatures`
(`lexical_proximity_algorithm.py`, lines 76-80): start from the sentinel
`next_prime + 1` and keep the smaller of the running value and each
shingle's hash.  The running-minimum accumulation is order-insensitive, so
`Finset.fold min` models the `for shingleID in shingleIDSet` loop for any
set iteration order. -/
def minhashSlot (a b : ℕ) (shingleIDSet : Finset ℕ) : ℕ :=
  shingleIDSet.fold min (nextPrime + 1) (hashCode a b)

/-- Embeds `generate_minhash_signatures`
(`lexical_proximity_algorithm.py`, lines 64-83): one signature per document
in dict order, one slot per hash function index `i < num_hashes`. -/
def LexicalProximityAlgorithm.generate_minhash_signatures
    (alg : LexicalProximityAlgorithm) : List (List ℕ) :=
  alg.docs_as_sets.map (fun doc =>
    (List.range alg.num_hashes).map (fun i =>
      minhashSlot (alg.coeff_a.getD i 0) (alg.coeff_b.getD i 0) doc.2))

/-- Embeds the inner counting loop of `calculate_similarities`
(`lexical_proximity_algorithm.py`, lines 98-100):
`count += (sig1[k] == sig2[k])` for `k in range(0, num_hashes)`. -/
def matchCount (num_hashes : ℕ) (sig1 sig2 : List ℕ) : ℕ :=
  (List.range num_hashes).foldl
    (fun count k => count + if sig1.getD k 0 = sig2.getD k 0 then 1 else 0) 0

/-- The similarity value `sim = count / self.num_hashes`
(`lexical_proximity_algorithm.py`, line 101), as an exact rational. -/
def simScore (num_hashes : ℕ) (sig1 sig2 : List ℕ) : ℚ :=
  (matchCount num_hashes sig1 sig2 : ℚ) / (num_hashes : ℚ)

/-- Embeds `calculate_similarities` (`lexical_proximity_algorithm.py`,
lines 85-103): for `i in range(num_docs)` and `j in range(i+1, num_docs)`,
append the triple `(i, j, sim)`. -/
def LexicalProximityAlgorithm.calculate_similarities
    (alg : LexicalProximityAlgorithm) (signatures : List (List ℕ)) :
    List (ℕ × ℕ × ℚ) :=
  (List.range alg.num_docs).flatMap (fun i =>
    (List.range' (i + 1) (alg.num_docs - (i + 1))).map (fun j =>
      (i, j, simScore alg.num_hashes (signatures.getD i []) (signatures.getD j []))))

/-! ### Helper lemmas about the embedded definitions -/

theorem hashCode_lt_nextPrime (a b x : ℕ) : hashCode a b x < nextPrime :=
  Nat.mod_lt _ (by decide)

theorem minhashSlot_empty (a b : ℕ) : minhashSlot a b ∅ = nextPrime + 1 :=
  Finset.fold_empty

theorem minhashSlot_nonempty (a b : ℕ) (s : Finset ℕ) (hs : s.Nonempty) :
    minhashSlot a b s = (s.image (hashCode a b)).min' (hs.image _) := by
  apply le_antisymm
  · rw [minhashSlot, Finset.fold_min_le]
    right
    obtain ⟨x, hx, hval⟩ := Finset.mem_image.mp (Finset.min'_mem _ (hs.image (hashCode a b)))
    exact ⟨x, hx, le_of_eq hval⟩
  · rw [minhashSlot, Finset.le_fold_min]
    refine ⟨?_, fun y hy => Finset.min'_le _ _ (Finset.mem_image_of_mem _ hy)⟩
    obtain ⟨x, _, hval⟩ := Finset.mem_image.mp (Finset.min'_mem _ (hs.image (hashCode a b)))
    rw [← hval]
    exact le_of_lt (lt_trans (hashCode_lt_nextPrime a b x) (Nat.lt_succ_self _))

theorem generate_minhash_signatures_row (alg : LexicalProximityAlgorithm) (d : ℕ)
    (hd : d < alg.docs_as_sets.length) :
    alg.generate_minhash_signatures.getD d [] =
      (List.range alg.num_hashes).map (fun i =>
        minhashSlot (alg.coeff_a.getD i 0) (alg.coeff_b.getD i 0)
          (alg.docs_as_sets.getD d (0, ∅)).2) := by
  unfold LexicalProximityAlgorithm.generate_minhash_signatures
  simp only [List.getD_eq_getElem?_getD, List.getElem?_map, List.getElem?_eq_getElem hd]
  simp

theorem generate_minhash_signatures_entry (alg : LexicalProximityAlgorithm) (d i : ℕ)
    (hd : d < alg.docs_as_sets.length) (hi : i < alg.num_hashes) :
    (alg.generate_minhash_signatures.getD d []).getD i 0 =
      minhashSlot (alg.coeff_a.getD i 0) (alg.coeff_b.getD i 0)
        (alg.docs_as_sets.getD d (0, ∅)).2 := by
  rw [generate_minhash_signatures_row alg d hd]
  simp only [List.getD_eq_getElem?_getD, List.getElem?_map, List.getElem?_range hi]
  simp

/-- Concrete instance used to instantiate the claim theorems: three documents,
the first two with identical shingle sets, the third degenerate (empty set). -/
def algEx : LexicalProximityAlgorithm :=
  { docs_as_sets := [(1, {3, 5}), (2, {3, 5}), (3, ∅)], num_hashes := 2,
    similarity_threshold := 1/2, num_docs := 3, coeff_a := [2, 7], coeff_b := [1, 3] }

/-! ### Claim C1 -/

/-- C1: for every document, the MinHash signature is computed slot-by-slot
from the sentinel `p + 1` with `p = 4294967311`, lowering the slot whenever
`(a_i * s + b_i) % p` is smaller, so the final slot value is the minimum of
the hash over the document's shingle set, and the sentinel when the set is
empty. -/
theorem minhash_slot_is_min_of_hashes (alg : LexicalProximityAlgorithm) (d i : ℕ)
    (hd : d < alg.docs_as_sets.length) (hi : i < alg.num_hashes) :
    nextPrime = 4294967311 ∧
    (alg.generate_minhash_signatures.getD d []).getD i 0 =
      (if h : ((alg.docs_as_sets.getD d (0, ∅)).2).Nonempty then
        (((alg.docs_as_sets.getD d (0, ∅)).2).image
          (hashCode (alg.coeff_a.getD i 0) (alg.coeff_b.getD i 0))).min'
          (h.image _)
      else nextPrime + 1) := by
  refine ⟨rfl, ?_⟩
  rw [generate_minhash_signatures_entry alg d i hd hi]
  split
  · exact minhashSlot_nonempty _ _ _ (by assumption)
  · rename_i h
    rw [Finset.not_nonempty_iff_eq_empty.mp h]
    exact minhashSlot_empty _ _

/-- Witness for C1 at the concrete instance `algEx`, document 0, slot 0. -/
theorem minhash_slot_is_min_of_hashes_witness :
    nextPrime = 4294967311 ∧
    (algEx.generate_minhash_signatures.getD 0 []).getD 0 0 =
      (if h : ((algEx.docs_as_sets.getD 0 (0, ∅)).2).Nonempty then
        (((algEx.docs_as_sets.getD 0 (0, ∅)).2).image
          (hashCode (algEx.coeff_a.getD 0 0) (algEx.coeff_b.getD 0 0))).min'
          (h.image _)
      else nextPrime + 1) :=
  minhash_slot_is_min_of_hashes algEx 0 0 (by decide) (by decide)

/-! ### Claim C3 -/

/-- C3: every generated signature has length exactly `num_hashes`, and the
signature of a document with an empty shingle set is all sentinel entries. -/
theorem signature_length_and_empty_doc (alg : LexicalProximityAlgorithm) :
    (∀ sig ∈ alg.generate_minhash_signatures, sig.length = alg.num_hashes) ∧
    (∀ d, d < alg.docs_as_sets.length → (alg.docs_as_sets.getD d (0, ∅)).2 = ∅ →
      alg.generate_minhash_signatures.getD d [] =
        List.replicate alg.num_hashes (nextPrime + 1)) := by
  constructor
  · intro sig hsig
    unfold LexicalProximityAlgorithm.generate_minhash_signatures at hsig
    obtain ⟨doc, _, rfl⟩ := List.mem_map.mp hsig
    simp
  · intro d hd hempty
    rw [generate_minhash_signatures_row alg d hd]
    refine List.eq_replicate_iff.mpr ⟨by simp, ?_⟩
    intro slot hslot
    obtain ⟨i, _, rfl⟩ := List.mem_map.mp hslot
    rw [hempty]
    exact minhashSlot_empty _ _

/-- Witness for C3 at the concrete instance `algEx`, whose third document has
an empty shingle set. -/
theorem signature_length_and_empty_doc_witness :
    ([nextPrime + 1, nextPrime + 1] : List ℕ).length = algEx.num_hashes ∧
    algEx.generate_minhash_signatures.getD 2 [] =
      List.replicate algEx.num_hashes (nextPrime + 1) :=
  ⟨(signature_length_and_empty_doc algEx).1 _ (by decide),
   (signature_length_and_empty_doc algEx).2 2 (by decide) (by decide)⟩

/-! ### Claim C10 -/

/-- C10: a signature entry is below `p = nextPrime` exactly when the
document's shingle set is nonempty, and equals the sentinel `p + 1` exactly
when the shingle set is empty. -/
theorem signature_entry_sentinel_iff (alg : LexicalProximityAlgorithm) (d i : ℕ)
    (hd : d < alg.docs_as_sets.length) (hi : i < alg.num_hashes) :
    ((alg.generate_minhash_signatures.getD d []).getD i 0 < nextPrime ↔
      ((alg.docs_as_sets.getD d (0, ∅)).2).Nonempty) ∧
    ((alg.generate_minhash_signatures.getD d []).getD i 0 = nextPrime + 1 ↔
      (alg.docs_as_sets.getD d (0, ∅)).2 = ∅) := by
  rw [generate_minhash_signatures_entry alg d i hd hi]
  rcases eq_or_ne (alg.docs_as_sets.getD d (0, ∅)).2 ∅ with hemp | hne
  · rw [hemp, minhashSlot_empty]
    constructor
    · constructor
      · intro hlt
        exact absurd hlt (by decide)
      · intro hne
        exact absurd rfl (Finset.nonempty_iff_ne_empty.mp hne)
    · simp
  · have hs : ((alg.docs_as_sets.getD d (0, ∅)).2).Nonempty :=
      Finset.nonempty_iff_ne_empty.mpr hne
    rw [minhashSlot_nonempty _ _ _ hs]
    obtain ⟨x, _, hval⟩ :=
      Finset.mem_image.mp (Finset.min'_mem _ (hs.image (hashCode _ _)))
    constructor
    · exact ⟨fun _ => hs, fun _ => hval ▸ hashCode_lt_nextPrime _ _ _⟩
    · constructor
      · intro heq
        have := hval ▸ hashCode_lt_nextPrime _ _ x
        omega
      · intro heq
        exact absurd heq hne

/-- Witness for C10 at the concrete instance `algEx`, document 0, slot 1. -/
theorem signature_entry_sentinel_iff_witness :
    ((algEx.generate_minhash_signatures.getD 0 []).getD 1 0 < nextPrime ↔
      ((algEx.docs_as_sets.getD 0 (0, ∅)).2).Nonempty) ∧
    ((algEx.generate_minhash_signatures.getD 0 []).getD 1 0 = nextPrime + 1 ↔
      (algEx.docs_as_sets.getD 0 (0, ∅)).2 = ∅) :=
  signature_entry_sentinel_iff algEx 0 1 (by decide) (by decide)

/-! ### Claim C2 -/

theorem foldl_add_ite_eq_countP (p : ℕ → Bool) (l : List ℕ) (acc : ℕ) :
    l.foldl (fun c k => c + if p k then 1 else 0) acc = acc + l.countP p := by
  induction l generalizing acc with
  | nil => simp
  | cons a l ih =>
    simp only [List.foldl_cons, List.countP_cons, ih]
    by_cases hpa : p a = true
    · simp [hpa]
      omega
    · simp [hpa]

theorem matchCount_eq_countP (num_hashes : ℕ) (sig1 sig2 : List ℕ) :
    matchCount num_hashes sig1 sig2 =
      (List.range num_hashes).countP (fun k => sig1.getD k 0 = sig2.getD k 0) := by
  unfold matchCount
  rw [show (fun (count k : ℕ) => count + if sig1.getD k 0 = sig2.getD k 0 then 1 else 0) =
      (fun (count k : ℕ) =>
        count + if (fun k => decide (sig1.getD k 0 = sig2.getD k 0)) k then 1 else 0) by
    funext count k
    by_cases h : sig1.getD k 0 = sig2.getD k 0 <;> simp [h]]
  rw [foldl_add_ite_eq_countP]
  simp

theorem mem_calculate_similarities (alg : LexicalProximityAlgorithm)
    (signatures : List (List ℕ)) (i j : ℕ) (s : ℚ) :
    (i, j, s) ∈ alg.calculate_similarities signatures ↔
      i < j ∧ j < alg.num_docs ∧
        s = simScore alg.num_hashes (signatures.getD i []) (signatures.getD j []) := by
  unfold LexicalProximityAlgorithm.calculate_similarities
  simp only [List.mem_flatMap, List.mem_map, List.mem_range, List.mem_range'_1]
  constructor
  · rintro ⟨a, ha, b, ⟨hb1, hb2⟩, heq⟩
    obtain ⟨rfl, rfl, rfl⟩ : a = i ∧ b = j ∧
        simScore alg.num_hashes (signatures.getD a []) (signatures.getD b []) = s := by
      simpa [Prod.ext_iff] using heq
    exact ⟨by omega, by omega, rfl⟩
  · rintro ⟨hij, hj, rfl⟩
    exact ⟨i, by omega, j, ⟨by omega, by omega⟩, rfl⟩

/-- C2: the similarity calculation returns exactly one triple `(i, j, sim)`
for every pair of signature-array positions `i < j < num_docs`, whose value
is the number of slot positions where the two signatures agree, divided by
`num_hashes`. -/
theorem calculate_similarities_exactly_pairs (alg : LexicalProximityAlgorithm)
    (signatures : List (List ℕ)) (hlen : signatures.length = alg.num_docs) :
    (∀ i j s, (i, j, s) ∈ alg.calculate_similarities signatures ↔
      (i < j ∧ j < alg.num_docs ∧
        s = (((List.range alg.num_hashes).countP
              (fun k => (signatures.getD i []).getD k 0 =
                        (signatures.getD j []).getD k 0) : ℕ) : ℚ)
            / (alg.num_hashes : ℚ))) ∧
    ((alg.calculate_similarities signatures).map
      (fun t => (t.1, t.2.1))).Nodup := by
  constructor
  · intro i j s
    rw [mem_calculate_similarities]
    rw [simScore, matchCount_eq_countP]
  · have hmap : (alg.calculate_similarities signatures).map (fun t => (t.1, t.2.1)) =
        (List.range alg.num_docs).flatMap (fun i =>
          (List.range' (i + 1) (alg.num_docs - (i + 1))).map (fun j => (i, j))) := by
      unfold LexicalProximityAlgorithm.calculate_similarities
      rw [List.map_flatMap]
      congr 1
      funext i
      rw [List.map_map]
      rfl
    rw [hmap, List.nodup_flatMap]
    constructor
    · intro i _
      exact (List.nodup_range' _ _).map
        (fun a b hab => by simpa using congrArg Prod.snd hab)
    · refine (List.pairwise_lt_range alg.num_docs).imp ?_
      intro a b hab x hxa hxb
      obtain ⟨j, _, rfl⟩ := List.mem_map.mp hxa
      obtain ⟨j', _, hj'⟩ := List.mem_map.mp hxb
      exact absurd (congrArg Prod.fst hj').symm (by simpa using Nat.ne_of_lt hab)

/-- Witness for C2 at the concrete instance `algEx` and its generated
signatures. -/
theorem calculate_similarities_exactly_pairs_witness :
    (∀ i j s, (i, j, s) ∈ algEx.calculate_similarities
        algEx.generate_minhash_signatures ↔
      (i < j ∧ j < algEx.num_docs ∧
        s = (((List.range algEx.num_hashes).countP
              (fun k => ((algEx.generate_minhash_signatures).getD i []).getD k 0 =
                        ((algEx.generate_minhash_signatures).getD j []).getD k 0) : ℕ) : ℚ)
            / (algEx.num_hashes : ℚ))) ∧
    ((algEx.calculate_similarities algEx.generate_minhash_signatures).map
      (fun t => (t.1, t.2.1))).Nodup :=
  calculate_similarities_exactly_pairs algEx algEx.generate_minhash_signatures (by decide)

/-! ### Claim C4 -/

/-- C4: the estimated similarity of two signatures of length `num_hashes` is
symmetric and always lies in the closed interval `[0, 1]`. -/
theorem simScore_symm_mem_unit_interval (num_hashes : ℕ) (x y : List ℕ)
    (hx : x.length = num_hashes) (hy : y.length = num_hashes)
    (hn : 0 < num_hashes) :
    simScore num_hashes x y = simScore num_hashes y x ∧
    0 ≤ simScore num_hashes x y ∧ simScore num_hashes x y ≤ 1 := by
  refine ⟨?_, ?_, ?_⟩
  · unfold simScore
    rw [matchCount_eq_countP, matchCount_eq_countP]
    congr 2
    apply List.countP_congr
    intro k _
    simp [eq_comm]
  · exact div_nonneg (Nat.cast_nonneg _) (Nat.cast_nonneg _)
  · rw [simScore, div_le_one (by exact_mod_cast hn)]
    rw [matchCount_eq_countP]
    exact_mod_cast le_trans (List.countP_le_length _) (le_of_eq (List.length_range _))

/-- Witness for C4 on two concrete signatures of length 2. -/
theorem simScore_symm_mem_unit_interval_witness :
    simScore 2 [1, 2] [1, 3] = simScore 2 [1, 3] [1, 2] ∧
    0 ≤ simScore 2 [1, 2] [1, 3] ∧ simScore 2 [1, 2] [1, 3] ≤ 1 :=
  simScore_symm_mem_unit_interval 2 [1, 2] [1, 3] rfl rfl (by decide)

/-! ### Claim C5 -/

theorem simScore_self (num_hashes : ℕ) (hn : 0 < num_hashes) (sig : List ℕ) :
    simScore num_hashes sig sig = 1 := by
  rw [simScore, matchCount_eq_countP]
  rw [show (List.range num_hashes).countP
        (fun k => sig.getD k 0 = sig.getD k 0) = num_hashes by
    rw [show (fun k => decide (sig.getD k 0 = sig.getD k 0)) = (fun _ => true) by
      funext k; simp]
    simp [List.countP_true]]
  exact div_self (Nat.cast_ne_zero.mpr hn.ne')

/-- C5: two documents whose shingle sets are equal receive estimated
similarity exactly 1, for any number of hash functions and any coefficient
lists. -/
theorem identical_shingle_sets_sim_one (alg : LexicalProximityAlgorithm)
    (hnd : alg.num_docs = alg.docs_as_sets.length) (hn : 0 < alg.num_hashes)
    (d e : ℕ) (s : ℚ)
    (hmem : (d, e, s) ∈ alg.calculate_similarities alg.generate_minhash_signatures)
    (hset : (alg.docs_as_sets.getD d (0, ∅)).2 = (alg.docs_as_sets.getD e (0, ∅)).2) :
    s = 1 := by
  obtain ⟨hde, he, rfl⟩ := (mem_calculate_similarities alg _ d e s).mp hmem
  have hd : d < alg.docs_as_sets.length := by omega
  have he' : e < alg.docs_as_sets.length := by omega
  rw [generate_minhash_signatures_row alg d hd, generate_minhash_signatures_row alg e he',
    hset]
  exact simScore_self _ hn _

/-- Witness for C5 at the concrete instance `algEx`, whose documents 0 and 1
have identical shingle sets. -/
theorem identical_shingle_sets_sim_one_witness :
    simScore algEx.num_hashes (algEx.generate_minhash_signatures.getD 0 [])
      (algEx.generate_minhash_signatures.getD 1 []) = 1 :=
  identical_shingle_sets_sim_one algEx rfl (by decide) 0 1 _
    ((mem_calculate_similarities algEx algEx.generate_minhash_signatures 0 1 _).mpr
      ⟨by decide, by decide, rfl⟩)
    (by decide)

/-! ### Claim C6 -/

theorem card_foldl_insert_le (g : ℕ → ℕ) (l : List ℕ) (s : Finset ℕ) :
    (l.foldl (fun acc i => insert (g i) acc) s).card ≤ s.card + l.length := by
  induction l generalizing s with
  | nil => simp
  | cons a l ih =>
    simp only [List.foldl_cons, List.length_cons]
    exact le_trans (ih (insert (g a) s))
      (by have := Finset.card_insert_le (g a) s; omega)

/-- C6: for positive window size, the extracted shingle set has at most
`max 0 (wordCount - shingle_size + 1)` elements, and is empty whenever the
text has fewer than `shingle_size` words. -/
theorem generate_shingles_card_le (dl : DataLoader) (text : String)
    (hk : 0 < dl.shingle_size) :
    ((dl.generate_shingles text).card : ℤ) ≤
      max 0 (((splitWords text).length : ℤ) - (dl.shingle_size : ℤ) + 1) ∧
    ((splitWords text).length < dl.shingle_size → dl.generate_shingles text = ∅) := by
  constructor
  · have hcard : (dl.generate_shingles text).card ≤
        windowCount (splitWords text).length dl.shingle_size := by
      unfold DataLoader.generate_shingles
      have h := card_foldl_insert_le
        (fun i => crc32 (utf8Encode (String.intercalate " "
          (((splitWords text).drop i).take dl.shingle_size))))
        (List.range (windowCount (splitWords text).length dl.shingle_size)) ∅
      simpa using h
    have hw : ((windowCount (splitWords text).length dl.shingle_size : ℕ) : ℤ) =
        max 0 (((splitWords text).length : ℤ) - (dl.shingle_size : ℤ) + 1) := by
      unfold windowCount
      rw [Int.toNat_eq_max, max_comm]
    calc ((dl.generate_shingles text).card : ℤ)
        ≤ ((windowCount (splitWords text).length dl.shingle_size : ℕ) : ℤ) := by
          exact_mod_cast hcard
      _ = _ := hw
  · intro hlt
    unfold DataLoader.generate_shingles
    rw [show windowCount (splitWords text).length dl.shingle_size = 0 by
      unfold windowCount; omega]
    rfl

/-- Witness for C6: a two-word window over a three-word text. -/
theorem generate_shingles_card_le_witness :
    (((DataLoader.init "corpus" 2).generate_shingles "a b c").card : ℤ) ≤
      max 0 (((splitWords "a b c").length : ℤ) -
        ((DataLoader.init "corpus" 2).shingle_size : ℤ) + 1) ∧
    ((splitWords "a b c").length < (DataLoader.init "corpus" 2).shingle_size →
      (DataLoader.init "corpus" 2).generate_shingles "a b c" = ∅) :=
  generate_shingles_card_le (DataLoader.init "corpus" 2) "a b c" (by decide)

/-! ### Claim C7 -/

theorem pickLoop_some_card (num_hashes : ℕ) (f : ℕ → ℕ) :
    ∀ (fuel i : ℕ) (s t : Finset ℕ), s.card ≤ num_hashes →
      pickLoop num_hashes f fuel i s = some t → t.card = num_hashes := by
  intro fuel
  induction fuel with
  | zero =>
    intro i s t hle heq
    unfold pickLoop at heq
    split at heq
    · rename_i hc
      cases heq
      omega
    · cases heq
  | succ fuel ih =>
    intro i s t hle heq
    unfold pickLoop at heq
    split at heq
    · rename_i hc
      cases heq
      omega
    · rename_i hc
      exact ih (i + 1) _ t (by have := Finset.card_insert_le (f i) s; omega) heq

theorem pickLoop_total (num_hashes : ℕ) (f : ℕ → ℕ) (hf : ∀ n, f n ≤ maxShingle) :
    ∀ (fuel i : ℕ) (s : Finset ℕ),
      s = (Finset.range i).image f → s.card ≤ num_hashes →
      num_hashes ≤ ((Finset.range (i + fuel)).image f).card →
      ∃ t, pickLoop num_hashes f fuel i s = some t ∧ t.card = num_hashes ∧
        ∀ x ∈ t, x ≤ maxShingle := by
  intro fuel
  induction fuel with
  | zero =>
    intro i s hs hle hcard
    have hc : num_hashes ≤ s.card := by
      rw [hs]
      simpa using hcard
    refine ⟨s, ?_, le_antisymm hle hc, ?_⟩
    · unfold pickLoop
      rw [if_pos hc]
    · intro x hx
      rw [hs] at hx
      obtain ⟨n, _, rfl⟩ := Finset.mem_image.mp hx
      exact hf n
  | succ fuel ih =>
    intro i s hs hle hcard
    by_cases hc : num_hashes ≤ s.card
    · refine ⟨s, ?_, le_antisymm hle hc, ?_⟩
      · unfold pickLoop
        rw [if_pos hc]
      · intro x hx
        rw [hs] at hx
        obtain ⟨n, _, rfl⟩ := Finset.mem_image.mp hx
        exact hf n
    · have step : pickLoop num_hashes f (fuel + 1) i s =
          if num_hashes ≤ s.card then some s
          else pickLoop num_hashes f fuel (i + 1) (insert (f i) s) := rfl
      rw [step, if_neg hc]
      refine ih (i + 1) (insert (f i) s) ?_ ?_ ?_
      · rw [hs, Finset.range_succ, Finset.image_insert]
      · have := Finset.card_insert_le (f i) s
        omega
      · rw [show i + 1 + fuel = i + (fuel + 1) by omega]
        exact hcard

/-- C7: with an in-range entropy stream that exhibits at least `num_hashes`
distinct values among its first `N` draws, the rejection-sampling loop of
the coefficient generator terminates within `N` draws and returns exactly
`num_hashes` pairwise-distinct values from `[0, maxShingle]`; moreover any
value it ever returns, for any fuel, has exactly `num_hashes` elements,
never fewer. -/
theorem pick_random_coeffs_complete (num_hashes N : ℕ) (f : ℕ → ℕ)
    (hf : ∀ n, f n ≤ maxShingle)
    (hN : num_hashes ≤ ((Finset.range N).image f).card) :
    (∃ l, pick_random_coeffs num_hashes f N = some l ∧ l.Nodup ∧
      l.length = num_hashes ∧ ∀ x ∈ l, x ≤ maxShingle) ∧
    (∀ fuel l, pick_random_coeffs num_hashes f fuel = some l →
      l.length = num_hashes) := by
  constructor
  · obtain ⟨t, ht, hcard, hmem⟩ := pickLoop_total num_hashes f hf N 0 ∅
      (by simp) (by simp) (by simpa using hN)
    refine ⟨t.sort (· ≤ ·), ?_, t.sort_nodup _, ?_, ?_⟩
    · unfold pick_random_coeffs
      rw [ht]
      rfl
    · rw [Finset.length_sort]
      exact hcard
    · intro x hx
      exact hmem x ((Finset.mem_sort _).mp hx)
  · intro fuel l hl
    unfold pick_random_coeffs at hl
    cases hpl : pickLoop num_hashes f fuel 0 ∅ with
    | none => rw [hpl] at hl; cases hl
    | some t =>
      rw [hpl] at hl
      cases hl
      rw [Finset.length_sort]
      exact pickLoop_some_card num_hashes f fuel 0 ∅ t (by simp) hpl

/-- Witness for C7 with the in-range stream `n ↦ min n maxShingle`, which
shows three distinct values among its first three draws. -/
theorem pick_random_coeffs_complete_witness :
    (∃ l, pick_random_coeffs 3 (fun n => min n maxShingle) 3 = some l ∧ l.Nodup ∧
      l.length = 3 ∧ ∀ x ∈ l, x ≤ maxShingle) ∧
    (∀ fuel l, pick_random_coeffs 3 (fun n => min n maxShingle) fuel = some l →
      l.length = 3) :=
  pick_random_coeffs_complete 3 3 (fun n => min n maxShingle)
    (fun n => Nat.min_le_right n maxShingle) (by decide)

/-! ### Claim C8 -/

/-- C8: the claim asserts fail-fast validation, but neither constructor
validates: `LexicalProximityAlgorithm.__init__` with `num_hashes = 0`
completes normally (the sampling loop exits immediately with empty pools),
and `DataLoader.__init__` with `shingle_size = 0` just stores the value. -/
theorem init_accepts_nonpositive_config :
    LexicalProximityAlgorithm.init [(1, {5})] 0 (1/2) (fun _ => 0) (fun _ => 0) 0 0 =
      some { docs_as_sets := [(1, {5})], num_hashes := 0,
             similarity_threshold := 1/2, num_docs := 1,
             coeff_a := [], coeff_b := [] } ∧
    DataLoader.init "corpus" 0 =
      { directory := "corpus", doc_counter := 0, docs_as_sets := [],
        shingle_size := 0 } := by
  constructor
  · have hp : pick_random_coeffs 0 (fun _ => 0) 0 = some [] := by
      have h1 : pickLoop 0 (fun _ => 0) 0 0 ∅ =
          if 0 ≤ (∅ : Finset ℕ).card then some ∅ else none := rfl
      unfold pick_random_coeffs
      rw [h1, if_pos (by simp)]
      simp
    unfold LexicalProximityAlgorithm.init
    rw [hp]
    rfl
  · rfl

/-! ### Claim C9 -/

/-- C9: the claim asserts an empty-corpus error, but the code surfaces none:
construction on an empty corpus succeeds, and both pipeline stages silently
return empty collections. -/
theorem empty_corpus_silently_empty :
    ∃ alg, LexicalProximityAlgorithm.init [] 1 (1/2) (fun _ => 7) (fun _ => 7) 1 1 =
        some alg ∧
      alg.generate_minhash_signatures = [] ∧
      alg.calculate_similarities alg.generate_minhash_signatures = [] := by
  refine ⟨{ docs_as_sets := [], num_hashes := 1, similarity_threshold := 1/2,
            num_docs := 0, coeff_a := [7], coeff_b := [7] }, ?_, rfl, rfl⟩
  have hp : pick_random_coeffs 1 (fun _ => 7) 1 = some [7] := by
    have h1 : pickLoop 1 (fun _ => 7) 1 0 ∅ =
        if 1 ≤ (∅ : Finset ℕ).card then some ∅
        else pickLoop 1 (fun _ => 7) 0 (0 + 1) (insert 7 ∅) := rfl
    have h2 : pickLoop 1 (fun _ => 7) 0 (0 + 1) (insert 7 ∅) =
        if 1 ≤ (insert 7 (∅ : Finset ℕ)).card then some (insert 7 ∅) else none := rfl
    unfold pick_random_coeffs
    rw [h1, if_neg (by simp), h2, if_pos (by simp)]
    simp [show insert 7 (∅ : Finset ℕ) = {7} from rfl]
  unfold LexicalProximityAlgorithm.init
  rw [hp]
  rfl

end LexicalProximity
